import Mathlib

/-!
# Verification of the logit-tracking processor

Shallow embedding of `outlines/processors/tracking.py` (class `LogitTracker`),
with theorems checking the specification's claims about it.

Modelling conventions:
* score values (`torch.Tensor` entries / numpy floats) are modelled as `ℚ`;
  `detach().cpu().numpy().copy()` is the identity on the modelled values;
* a logits tensor of shape `(batch, vocab)` is a `List (List ℚ)` (list of rows),
  so `logits.shape[0]` is the outer length and `logits[0]` the first row;
* Python exceptions are modelled with `Except`: `process_logits` returns the
  would-be return value (or the raised error) together with the tracker state
  reached when control leaves the method (a raise before a mutation leaves the
  state untouched, a raise after a mutation keeps it — matching statement order);
* the tokenizer and the delegate processor are external collaborators, modelled
  as function-typed fields; `torch.softmax` is likewise external (a numeric
  primitive) and is passed to the query layer as an explicit function argument.
-/

namespace Tracking

/-- Errors the Python code can raise.  `invalidBatchSize` models the two
`ValueError`s in `process_logits` (the string names the offending dimension,
mirroring the two distinct messages); `indexError` models an `IndexError`
from indexing an empty list; `noTokenizer` the `AttributeError`s raised when
no tokenizer is available; `delegateError` an exception escaping the wrapped
processor. -/
inductive TrackError where
  | invalidBatchSize (dim : String) (n : Nat)
  | indexError
  | noTokenizer
  | delegateError (msg : String)
  deriving Repr, DecidableEq

/-- The decoding capability: `tokenizer.decode` maps a list of token ids to a
list of strings (one string per id). -/
structure Tokenizer where
  decode : List Nat → List String

/-- The wrapped constraint processor (`self.processor`): its `process_logits`
method (which may raise, modelled as `Except String`) and its optional
`tokenizer` attribute (`none` = attribute absent). -/
structure Delegate where
  process : List (List Nat) → List (List ℚ) → Except String (List (List ℚ))
  tokenizer : Option Tokenizer

/-- The mutable state of a `LogitTracker` instance (tracking.py lines 57-83). -/
structure LogitTracker where
  processor : Option Delegate
  unstructured_logits : List (List ℚ)
  structured_logits : List (List ℚ)
  vocab_tokens : Option (List String)
  chosen_tokens : List Nat
  _started : Bool
  tokenizer : Option Tokenizer

/-- `LogitTracker.__init__` (lines 57-83): empty stores, `_started = False`,
and the tokenizer copied from the wrapped processor when it has one. -/
def LogitTracker.init (processor : Option Delegate) : LogitTracker where
  processor := processor
  unstructured_logits := []
  structured_logits := []
  vocab_tokens := none
  chosen_tokens := []
  _started := false
  tokenizer :=
    match processor with
    | some p => p.tokenizer
    | none => none

/-- Lines 129-137 of `process_logits`: record the chosen token.  If started and
the (single) token history has length > 1, append its last element to
`chosen_tokens`; otherwise set `_started := true`.  When started, Python
evaluates `len(input_ids[0])`, which raises `IndexError` on an empty batch
(short-circuited away when not started). -/
def trackChosen (t : LogitTracker) (input_ids : List (List Nat)) :
    Except TrackError LogitTracker :=
  if t._started then
    match input_ids with
    | [] => .error .indexError
    | hist :: _ =>
      if 1 < hist.length then
        .ok { t with chosen_tokens := t.chosen_tokens ++ [hist.getLastD 0] }
      else
        .ok { t with _started := true }
  else
    .ok { t with _started := true }

/-- Lines 139-147 of `process_logits`: apply the wrapped processor if present
(appending a copy of its first output row to `structured_logits` and
returning its output; its exception propagates with no structured append),
otherwise append the raw row and return the raw logits. -/
def applyDelegate (t : LogitTracker) (input_ids : List (List Nat))
    (logits : List (List ℚ)) (row : List ℚ) :
    Except TrackError (List (List ℚ)) × LogitTracker :=
  match t.processor with
  | some p =>
    match p.process input_ids logits with
    | .ok processed =>
      match processed with
      | [] => (.error .indexError, t)
      | prow :: _ =>
        (.ok processed,
          { t with structured_logits := t.structured_logits ++ [prow] })
    | .error msg => (.error (.delegateError msg), t)
  | none =>
    (.ok logits, { t with structured_logits := t.structured_logits ++ [row] })

/-- `LogitTracker.process_logits` (lines 85-147).  Returns the method's result
(or raised error) and the state when control leaves the method.  The two
batch-size checks (lines 114-124) come first and mutate nothing; then the raw
row `logits[0]` is appended to `unstructured_logits` (line 127, raising
`IndexError` on an empty logits batch before any append); then the chosen
token is recorded (lines 129-137); then the delegate is applied (139-147). -/
def process_logits (t : LogitTracker) (input_ids : List (List Nat))
    (logits : List (List ℚ)) :
    Except TrackError (List (List ℚ)) × LogitTracker :=
  if 1 < logits.length then
    (.error (.invalidBatchSize "batch" logits.length), t)
  else if 1 < input_ids.length then
    (.error (.invalidBatchSize "sequences" input_ids.length), t)
  else
    match logits with
    | [] => (.error .indexError, t)
    | row :: _ =>
      let t1 := { t with unstructured_logits := t.unstructured_logits ++ [row] }
      match trackChosen t1 input_ids with
      | .error e => (.error e, t1)
      | .ok t2 => applyDelegate t2 input_ids logits row

/-- A sequence of generation-loop calls to `process_logits`, stopping at the
first raised error (`none`). -/
def runCalls (t : LogitTracker) :
    List (List (List Nat) × List (List ℚ)) → Option LogitTracker
  | [] => some t
  | c :: rest =>
    match process_logits t c.1 c.2 with
    | (Except.ok _, t') => runCalls t' rest
    | (Except.error _, _) => none

/-- `LogitTracker.clear` (lines 321-325): empty the two score stores and the
chosen-token log; nothing else is touched. -/
def LogitTracker.clear (t : LogitTracker) : LogitTracker :=
  { t with unstructured_logits := [], structured_logits := [],
           chosen_tokens := [] }

/-- `LogitTracker.get_vocab_mapping` (lines 296-319).  Fails when no tokenizer
is attached; otherwise builds the index→string table once (sized by the width
of the first stored unstructured vector, `self.unstructured_logits[0]` —
an `IndexError` if the store is empty) and caches it; a cached table is
returned as-is.  Returns the table together with the (possibly updated)
tracker state. -/
def get_vocab_mapping (t : LogitTracker) :
    Except TrackError (List String × LogitTracker) :=
  match t.tokenizer with
  | none => .error .noTokenizer
  | some tk =>
    match t.vocab_tokens with
    | some vt => .ok (vt, t)
    | none =>
      match t.unstructured_logits with
      | [] => .error .indexError
      | v :: _ =>
        let vt := (List.range v.length).map (fun i => (tk.decode [i]).headD "")
        .ok (vt, { t with vocab_tokens := some vt })

/-- `LogitTracker.sequence_up_to` (lines 425-461): empty chosen-token log →
empty string (before any tokenizer lookup); otherwise decode
`chosen_tokens[:pos]` (Python slicing clamps; `pos = none` means the whole
log) with the delegate's tokenizer if it has one, else the tracker's own
(`none` → the `AttributeError` from calling `.decode` on `None`). -/
def sequence_up_to (t : LogitTracker) (pos : Option Nat) :
    Except TrackError String :=
  if t.chosen_tokens.isEmpty then .ok ""
  else
    let tkOpt :=
      match t.processor with
      | some p =>
        match p.tokenizer with
        | some ptk => some ptk
        | none => t.tokenizer
      | none => t.tokenizer
    match tkOpt with
    | none => .error .noTokenizer
    | some tk =>
      let end_pos := pos.getD t.chosen_tokens.length
      .ok (String.join (tk.decode (t.chosen_tokens.take end_pos)))

/-- The pair of matrices returned by `get_probabilities` / `get_logits`;
`np.column_stack` packaging is modelled as a list of columns, one per
position, so `m[:, pos]` is `unstructured.getD pos []`. -/
structure Matrices where
  unstructured : List (List ℚ)
  structured : List (List ℚ)

/-- `LogitTracker.get_probabilities` (lines 149-174): apply softmax (an
external numeric primitive, passed as a function) to each stored column. -/
def get_probabilities (softmax : List ℚ → List ℚ) (t : LogitTracker) :
    Matrices where
  unstructured := t.unstructured_logits.map softmax
  structured := t.structured_logits.map softmax

/-- `LogitTracker.get_logits` (lines 176-193): the stored columns as-is. -/
def get_logits (t : LogitTracker) : Matrices where
  unstructured := t.unstructured_logits
  structured := t.structured_logits

/-- The comparison underlying `np.argsort` on a value vector `v`: ascending by
value, ties resolved by ascending index (the deterministic model of the
sort; numpy's default sort is modelled as stable). -/
def ascLex (v : List ℚ) (i j : Nat) : Prop :=
  v.getD i 0 < v.getD j 0 ∨ (v.getD i 0 = v.getD j 0 ∧ i ≤ j)

instance (v : List ℚ) : DecidableRel (ascLex v) := fun i j => by
  unfold ascLex; infer_instance

instance (v : List ℚ) : IsTotal Nat (ascLex v) where
  total i j := by
    unfold ascLex
    rcases lt_trichotomy (v.getD i 0) (v.getD j 0) with h | h | h
    · exact Or.inl (Or.inl h)
    · rcases Nat.le_total i j with hij | hij
      · exact Or.inl (Or.inr ⟨h, hij⟩)
      · exact Or.inr (Or.inr ⟨h.symm, hij⟩)
    · exact Or.inr (Or.inl h)

instance (v : List ℚ) : IsTrans Nat (ascLex v) where
  trans i j k hij hjk := by
    unfold ascLex at *
    rcases hij with h1 | ⟨e1, l1⟩
    · rcases hjk with h2 | ⟨e2, _⟩
      · exact Or.inl (h1.trans h2)
      · exact Or.inl (e2 ▸ h1)
    · rcases hjk with h2 | ⟨e2, l2⟩
      · exact Or.inl (e1 ▸ h2)
      · exact Or.inr ⟨e1.trans e2, l1.trans l2⟩

/-- `np.argsort(v)` (modelled): the indices `0 .. v.length - 1` sorted
ascending by value. -/
def argsort (v : List ℚ) : List Nat :=
  List.insertionSort (ascLex v) (List.range v.length)

/-- Lines 256-260 of `get_top_tokens`:
`np.argsort(max_probs)[-k_actual:][::-1]` with
`k_actual = min(k, len(max_probs))`.  For `k_actual > 0` the slice keeps the
last `k_actual` entries of the ascending argsort (then reverses); for
`k_actual = 0`, Python's `[-0:]` is `[0:]`, the WHOLE array, so the reversed
full argsort is returned. -/
def topKIndices (maxProbs : List ℚ) (k : Nat) : List Nat :=
  let k_actual := min k maxProbs.length
  if k_actual = 0 then (argsort maxProbs).reverse
  else (argsort maxProbs).reverse.take k_actual

/-- Modelled from the spec: the spec's words "rank vocabulary indices by
max(unstructured_prob, structured_prob) descending, breaking ties by index
order consistent with a stable descending sort" — a stable descending sort
keeps tied indices in ascending index order; take the first `min(k, n)`.
Stated only for comparison with `topKIndices` (refinement check). -/
def stableDescTopK (v : List ℚ) (k : Nat) : List Nat :=
  (List.insertionSort
    (fun i j => v.getD j 0 < v.getD i 0 ∨ (v.getD i 0 = v.getD j 0 ∧ i ≤ j))
    (List.range v.length)).take (min k v.length)

/-- One entry of a `get_top_tokens` report (lines 270-288).  The two logit
fields are `none` when `include_logits` is false. -/
structure TokenInfo where
  token : String
  unstructured_prob : ℚ
  structured_prob : ℚ
  is_chosen : Bool
  unstructured_logit : Option ℚ
  structured_logit : Option ℚ

/-- One per-position report of `get_top_tokens` (lines 290-292). -/
structure PositionReport where
  position : Nat
  text_so_far : String
  tokens : List TokenInfo

/-- Lines 262-267 of `get_top_tokens`: the actual next token, i.e.
`sequence_up_to(pos + 1)[len(text_so_far):]` when `pos` is not the last
structured position, `""` otherwise (Python's `len - 1` on an empty store is
`-1`; with `Nat` subtraction `pos < len - 1` agrees for every `pos`). -/
def nextTokenAt (t : LogitTracker) (pos : Nat) (text_so_far : String) :
    Except TrackError String :=
  if pos < t.structured_logits.length - 1 then
    match sequence_up_to t (some (pos + 1)) with
    | .error e => .error e
    | .ok s => .ok (s.drop text_so_far.length)
  else .ok ""

/-- The loop body of `get_top_tokens` (lines 240-294) over the selected
positions: skip out-of-range positions, otherwise build the report from the
probability columns, the top-k indices and the vocabulary table. -/
def gtLoop (t : LogitTracker) (softmax : List ℚ → List ℚ) (k : Nat)
    (include_logits : Bool) (vocab : List String) :
    List Nat → Except TrackError (List PositionReport)
  | [] => .ok []
  | pos :: rest =>
    if t.unstructured_logits.length ≤ pos then
      gtLoop t softmax k include_logits vocab rest
    else
      match sequence_up_to t (some pos) with
      | .error e => .error e
      | .ok text_so_far =>
        let u_probs := (get_probabilities softmax t).unstructured.getD pos []
        let s_probs := (get_probabilities softmax t).structured.getD pos []
        let u_logits := (get_logits t).unstructured.getD pos []
        let s_logits := (get_logits t).structured.getD pos []
        let max_probs := List.zipWith max u_probs s_probs
        let top_indices := topKIndices max_probs k
        match nextTokenAt t pos text_so_far with
        | .error e => .error e
        | .ok next_token =>
          let tokens := top_indices.map (fun idx =>
            { token := vocab.getD idx ""
              unstructured_prob := u_probs.getD idx 0
              structured_prob := s_probs.getD idx 0
              is_chosen := decide (vocab.getD idx "" = next_token)
              unstructured_logit :=
                if include_logits then some (u_logits.getD idx 0) else none
              structured_logit :=
                if include_logits then some (s_logits.getD idx 0) else none :
              TokenInfo })
          match gtLoop t softmax k include_logits vocab rest with
          | .error e => .error e
          | .ok results =>
            .ok ({ position := pos, text_so_far := text_so_far,
                   tokens := tokens } :: results)

/-- `LogitTracker.get_top_tokens` (lines 195-294).  `positions = none` means
all recorded positions (`range(len(self.structured_logits))`, line 229); a
single-int argument is the singleton list.  The vocabulary mapping is built
before the loop (its error propagates; the cache update it performs does not
affect the returned reports and is dropped here). -/
def get_top_tokens (t : LogitTracker) (softmax : List ℚ → List ℚ) (k : Nat)
    (positions : Option (List Nat)) (include_logits : Bool) :
    Except TrackError (List PositionReport) :=
  let ps :=
    match positions with
    | none => List.range t.structured_logits.length
    | some l => l
  match get_vocab_mapping t with
  | .error e => .error e
  | .ok (vocab, _) => gtLoop t softmax k include_logits vocab ps

/-- `np.maximum(u_vals, s_vals)` (line 396). -/
def maxVals (u s : List ℚ) : List ℚ := List.zipWith max u s

/-- `np.where(max_vals >= min_value)[0]` (line 399): the indices of `maxVals`
meeting the threshold, in ascending order. -/
def passingIndices (u s : List ℚ) (m : ℚ) : List Nat :=
  (List.range (maxVals u s).length).filter
    (fun i => decide (m ≤ (maxVals u s).getD i 0))

/-- Python's `l[-k:]`: the last `min k l.length` elements. -/
def lastK (k : Nat) (l : List Nat) : List Nat := l.drop (l.length - k)

/-- Lines 393-406 of `_to_dataframe`: without a threshold, all of
`range(len(vocab))`; with threshold `m`, the passing indices reordered and
capped by `valid_indices[np.argsort(max_vals[valid_indices])[-10:]]` (the
guard `len(valid_indices) > 0` leaves the empty list as-is). -/
def validIndicesFor (u s : List ℚ) (mv : Option ℚ) (vocabLen : Nat) :
    List Nat :=
  match mv with
  | some m =>
    let valid := passingIndices u s m
    if 0 < valid.length then
      (lastK 10 (argsort (valid.map (fun i => (maxVals u s).getD i 0)))).map
        (fun j => valid.getD j 0)
    else valid
  | none => List.range vocabLen

/-- One row of the exported table (lines 411-421). -/
structure Row where
  position : Nat
  token : String
  natural : ℚ
  constrained : ℚ
  chosen : Bool

/-- The rows `_to_dataframe` emits for one position (lines 380-421): the
chosen token string when the log covers this position (`None` otherwise,
which never equals a string), and one row per valid index. -/
def dfPosRows (vocab : List String) (chosen_tokens : List Nat)
    (values : Matrices) (mv : Option ℚ) (pos : Nat) : List Row :=
  let u_vals := values.unstructured.getD pos []
  let s_vals := values.structured.getD pos []
  let chosen_token : Option String :=
    if h : pos < chosen_tokens.length then
      some (vocab.getD (chosen_tokens.get ⟨pos, h⟩) "")
    else none
  (validIndicesFor u_vals s_vals mv vocab.length).map (fun idx =>
    { position := pos
      token := vocab.getD idx ""
      natural := u_vals.getD idx 0
      constrained := s_vals.getD idx 0
      chosen := decide (some (vocab.getD idx "") = chosen_token) : Row })

/-- `LogitTracker._to_dataframe` (lines 335-423): the vocabulary mapping is
fetched first (error propagates), then one batch of rows per position
(`values["unstructured"].shape[1]` positions).  The pandas packaging is
external; the model returns the row list. -/
def _to_dataframe (t : LogitTracker) (values : Matrices) (mv : Option ℚ) :
    Except TrackError (List Row) :=
  match get_vocab_mapping t with
  | .error e => .error e
  | .ok (vocab, _) =>
    .ok ((List.range values.unstructured.length).flatMap
      (dfPosRows vocab t.chosen_tokens values mv))

/-! ## Concrete instances used by witnesses and counterexamples -/

/-- A delegate that always fails, for the C10 witness. -/
def failDelegate : Delegate where
  process := fun _ _ => .error "boom"
  tokenizer := none

/-- A tokenizer decoding id 0 to "a" and every other id to "b". -/
def tkAB : Tokenizer where
  decode := fun l => l.map (fun i => if i = 0 then "a" else "b")

/-- A tracker that has recorded one position over a 2-token vocabulary. -/
def sampleTracker : LogitTracker where
  processor := none
  unstructured_logits := [[(1 : ℚ), 1]]
  structured_logits := [[(1 : ℚ), 1]]
  vocab_tokens := none
  chosen_tokens := []
  _started := true
  tokenizer := some tkAB

/-- A tokenizer whose id 0 decodes to the empty string. -/
def tkEmptyA : Tokenizer where
  decode := fun l => l.map (fun i => if i = 0 then "" else "a")

/-- Like `sampleTracker`, but token 0 decodes to the empty string. -/
def emptyTokenTracker : LogitTracker where
  processor := none
  unstructured_logits := [[(1 : ℚ), 1]]
  structured_logits := [[(1 : ℚ), 1]]
  vocab_tokens := none
  chosen_tokens := []
  _started := true
  tokenizer := some tkEmptyA

/-! ## Helper lemmas about the processing entry point -/

theorem trackChosen_not_started {t : LogitTracker} {ids : List (List Nat)}
    (h : t._started = false) :
    trackChosen t ids = .ok { t with _started := true } := by
  unfold trackChosen
  simp [h]

theorem trackChosen_started_long {t : LogitTracker} {hist : List Nat}
    {rest : List (List Nat)} (h : t._started = true) (hl : 1 < hist.length) :
    trackChosen t (hist :: rest) =
      .ok { t with chosen_tokens := t.chosen_tokens ++ [hist.getLastD 0] } := by
  unfold trackChosen
  simp [h, hl]

theorem trackChosen_started_short {t : LogitTracker} {hist : List Nat}
    {rest : List (List Nat)} (h : t._started = true) (hl : ¬ 1 < hist.length) :
    trackChosen t (hist :: rest) = .ok { t with _started := true } := by
  unfold trackChosen
  simp [h, hl]

theorem trackChosen_ok_spec {t t2 : LogitTracker} {ids : List (List Nat)}
    (h : trackChosen t ids = Except.ok t2) :
    t2.unstructured_logits = t.unstructured_logits ∧
    t2.structured_logits = t.structured_logits ∧
    t2.processor = t.processor ∧ t2.tokenizer = t.tokenizer ∧
    t2.vocab_tokens = t.vocab_tokens ∧ t2._started = true ∧
    ((t._started = false ∨
        ∃ hist rest, ids = hist :: rest ∧ ¬ 1 < hist.length) ∧
      t2.chosen_tokens = t.chosen_tokens ∨
      (t._started = true ∧
        ∃ hist rest, ids = hist :: rest ∧ 1 < hist.length ∧
          t2.chosen_tokens = t.chosen_tokens ++ [hist.getLastD 0])) := by
  cases hst : t._started with
  | false =>
    rw [trackChosen_not_started hst] at h
    injection h with h'
    subst h'
    exact ⟨rfl, rfl, rfl, rfl, rfl, rfl, Or.inl ⟨Or.inl rfl, rfl⟩⟩
  | true =>
    cases ids with
    | nil => simp [trackChosen, hst] at h
    | cons hist rest =>
      by_cases hl : 1 < hist.length
      · rw [trackChosen_started_long hst hl] at h
        injection h with h'
        subst h'
        exact ⟨rfl, rfl, rfl, rfl, rfl, hst,
          Or.inr ⟨rfl, hist, rest, rfl, hl, rfl⟩⟩
      · rw [trackChosen_started_short hst hl] at h
        injection h with h'
        subst h'
        exact ⟨rfl, rfl, rfl, rfl, rfl, rfl,
          Or.inl ⟨Or.inr ⟨hist, rest, rfl, hl⟩, rfl⟩⟩

theorem applyDelegate_none {t : LogitTracker} {ids : List (List Nat)}
    {lg : List (List ℚ)} {row : List ℚ} (h : t.processor = none) :
    applyDelegate t ids lg row =
      (.ok lg, { t with structured_logits := t.structured_logits ++ [row] }) := by
  simp [applyDelegate, h]

theorem applyDelegate_some_err {t : LogitTracker} {ids : List (List Nat)}
    {lg : List (List ℚ)} {row : List ℚ} {p : Delegate} {msg : String}
    (hp : t.processor = some p) (hres : p.process ids lg = .error msg) :
    applyDelegate t ids lg row = (.error (.delegateError msg), t) := by
  simp [applyDelegate, hp, hres]

theorem applyDelegate_some_ok {t : LogitTracker} {ids : List (List Nat)}
    {lg : List (List ℚ)} {row prow : List ℚ} {p : Delegate}
    {prest : List (List ℚ)}
    (hp : t.processor = some p) (hres : p.process ids lg = .ok (prow :: prest)) :
    applyDelegate t ids lg row =
      (.ok (prow :: prest),
       { t with structured_logits := t.structured_logits ++ [prow] }) := by
  simp [applyDelegate, hp, hres]

theorem applyDelegate_ok_spec {t t' : LogitTracker} {ids : List (List Nat)}
    {lg out : List (List ℚ)} {row : List ℚ}
    (h : applyDelegate t ids lg row = (Except.ok out, t')) :
    (∃ prow, t'.structured_logits = t.structured_logits ++ [prow]) ∧
    t'.unstructured_logits = t.unstructured_logits ∧
    t'.chosen_tokens = t.chosen_tokens ∧
    t'.processor = t.processor ∧ t'.tokenizer = t.tokenizer ∧
    t'.vocab_tokens = t.vocab_tokens ∧ t'._started = t._started := by
  cases hp : t.processor with
  | none =>
    rw [applyDelegate_none hp] at h
    injection h with h1 h2
    subst h2
    exact ⟨⟨row, rfl⟩, rfl, rfl, hp, rfl, rfl, rfl⟩
  | some p =>
    cases hres : p.process ids lg with
    | error msg =>
      rw [applyDelegate_some_err hp hres] at h
      exact absurd h (by simp)
    | ok processed =>
      cases processed with
      | nil =>
        simp [applyDelegate, hp, hres] at h
      | cons prow prest =>
        rw [applyDelegate_some_ok hp hres] at h
        injection h with h1 h2
        subst h2
        exact ⟨⟨prow, rfl⟩, rfl, rfl, hp, rfl, rfl, rfl⟩

theorem process_logits_batch1_err {t : LogitTracker} {ids : List (List Nat)}
    {lg : List (List ℚ)} (h : 1 < lg.length) :
    process_logits t ids lg =
      (.error (.invalidBatchSize "batch" lg.length), t) := by
  unfold process_logits
  rw [if_pos h]

theorem process_logits_batch2_err {t : LogitTracker} {ids : List (List Nat)}
    {lg : List (List ℚ)} (h1 : ¬ 1 < lg.length) (h2 : 1 < ids.length) :
    process_logits t ids lg =
      (.error (.invalidBatchSize "sequences" ids.length), t) := by
  unfold process_logits
  rw [if_neg h1, if_pos h2]

theorem process_logits_single {t : LogitTracker} {ids : List (List Nat)}
    {row : List ℚ} (hids : ¬ 1 < ids.length) :
    process_logits t ids [row] =
      (match trackChosen
          { t with unstructured_logits := t.unstructured_logits ++ [row] }
          ids with
       | .error e =>
         (.error e,
          { t with unstructured_logits := t.unstructured_logits ++ [row] })
       | .ok t2 => applyDelegate t2 ids [row] row) := by
  unfold process_logits
  rw [if_neg (by simp), if_neg hids]

/-- Full inversion of a successful `process_logits` call. -/
theorem process_logits_ok_spec {t t' : LogitTracker} {ids : List (List Nat)}
    {lg out : List (List ℚ)}
    (h : process_logits t ids lg = (Except.ok out, t')) :
    ∃ row, lg = [row] ∧ ¬ 1 < ids.length ∧
      t'.unstructured_logits = t.unstructured_logits ++ [row] ∧
      (∃ prow, t'.structured_logits = t.structured_logits ++ [prow]) ∧
      t'._started = true ∧
      t'.processor = t.processor ∧ t'.tokenizer = t.tokenizer ∧
      t'.vocab_tokens = t.vocab_tokens ∧
      ((t._started = false ∨
          ∃ hist rest, ids = hist :: rest ∧ ¬ 1 < hist.length) ∧
        t'.chosen_tokens = t.chosen_tokens ∨
        (t._started = true ∧
          ∃ hist rest, ids = hist :: rest ∧ 1 < hist.length ∧
            t'.chosen_tokens = t.chosen_tokens ++ [hist.getLastD 0])) := by
  by_cases h1 : 1 < lg.length
  · rw [process_logits_batch1_err h1] at h
    exact absurd h (by simp)
  by_cases h2 : 1 < ids.length
  · rw [process_logits_batch2_err h1 h2] at h
    exact absurd h (by simp)
  cases lg with
  | nil =>
    simp [process_logits, h2] at h
  | cons row rest =>
    have hrest : rest = [] := by
      cases rest with
      | nil => rfl
      | cons a b => simp at h1
    subst hrest
    rw [process_logits_single h2] at h
    rcases htc : trackChosen
        { t with unstructured_logits := t.unstructured_logits ++ [row] }
        ids with e | t2
    · rw [htc] at h
      exact absurd h (by simp)
    · rw [htc] at h
      obtain ⟨hu2, hs2, hp2, htk2, hv2, hst2, hch2⟩ := trackChosen_ok_spec htc
      obtain ⟨⟨prow, hs'⟩, hu', hch', hp', htk', hv', hst'⟩ :=
        applyDelegate_ok_spec h
      refine ⟨row, rfl, h2, by rw [hu', hu2], ⟨prow, by rw [hs', hs2]⟩,
        by rw [hst', hst2], by rw [hp', hp2], by rw [htk', htk2],
        by rw [hv', hv2], ?_⟩
      rcases hch2 with ⟨hc, he⟩ | ⟨hst, hist, rest, hids, hl, he⟩
      · exact Or.inl ⟨hc, by rw [hch', he]⟩
      · exact Or.inr ⟨hst, hist, rest, hids, hl, by rw [hch', he]⟩

theorem runCalls_append (t : LogitTracker)
    (l₁ l₂ : List (List (List Nat) × List (List ℚ))) :
    runCalls t (l₁ ++ l₂) =
      (runCalls t l₁).bind (fun t' => runCalls t' l₂) := by
  induction l₁ generalizing t with
  | nil => rfl
  | cons c rest ih =>
    simp only [List.cons_append, runCalls]
    rcases hp : process_logits t c.1 c.2 with ⟨res, t''⟩
    cases res with
    | ok v => exact ih t''
    | error e => rfl

theorem runCalls_store_lengths {t tf : LogitTracker}
    {calls : List (List (List Nat) × List (List ℚ))}
    (h : runCalls t calls = some tf) :
    tf.unstructured_logits.length
        = t.unstructured_logits.length + calls.length ∧
      tf.structured_logits.length
        = t.structured_logits.length + calls.length ∧
      (calls ≠ [] → tf._started = true) := by
  induction calls generalizing t with
  | nil =>
    cases h
    exact ⟨rfl, rfl, fun hc => absurd rfl hc⟩
  | cons c rest ih =>
    rw [runCalls] at h
    rcases hp : process_logits t c.1 c.2 with ⟨res, t''⟩
    rw [hp] at h
    cases res with
    | error e => exact absurd h (by simp)
    | ok v =>
      obtain ⟨row, _, _, hu, ⟨prow, hs⟩, hst, _⟩ := process_logits_ok_spec hp
      obtain ⟨ihu, ihs, ihst⟩ := ih h
      refine ⟨?_, ?_, fun _ => ?_⟩
      · rw [ihu, hu]
        simp [Nat.add_assoc, Nat.add_comm 1]
      · rw [ihs, hs]
        simp [Nat.add_assoc, Nat.add_comm 1]
      · cases rest with
        | nil => cases h; exact hst
        | cons d ds => exact ihst (by simp)

theorem runCalls_chosen_growth {t tf : LogitTracker}
    {calls : List (List (List Nat) × List (List ℚ))}
    (hst : t._started = true)
    (hall : ∀ c ∈ calls, 1 < (c.1.headD []).length)
    (h : runCalls t calls = some tf) :
    tf.chosen_tokens.length = t.chosen_tokens.length + calls.length := by
  induction calls generalizing t with
  | nil => cases h; rfl
  | cons c rest ih =>
    rw [runCalls] at h
    rcases hp : process_logits t c.1 c.2 with ⟨res, t''⟩
    rw [hp] at h
    cases res with
    | error e => exact absurd h (by simp)
    | ok v =>
      obtain ⟨row, _, _, _, _, hst'', _, _, _, hch⟩ := process_logits_ok_spec hp
      have hc1 : 1 < (c.1.headD []).length := hall c (by simp)
      have hch' : t''.chosen_tokens.length = t.chosen_tokens.length + 1 := by
        rcases hch with ⟨hcond, he⟩ | ⟨_, hist, rest', hids, hl, he⟩
        · rcases hcond with hfalse | ⟨hist, rest', hids, hshort⟩
          · rw [hst] at hfalse; cases hfalse
          · rw [hids] at hc1
            simp at hc1
            exact absurd hc1 hshort
        · rw [he]; simp
      have := ih hst'' (fun d hd => hall d (by simp [hd])) h
      simp only [List.length_cons]
      omega

/-- The reports produced by the `get_top_tokens` loop carry exactly the
in-range requested positions, in order. -/
theorem gtLoop_positions {t : LogitTracker} {softmax : List ℚ → List ℚ}
    {k : Nat} {incl : Bool} {vocab : List String} {ps : List Nat}
    {results : List PositionReport}
    (h : gtLoop t softmax k incl vocab ps = .ok results) :
    results.map PositionReport.position
      = ps.filter (fun p => decide (p < t.unstructured_logits.length)) := by
  induction ps generalizing results with
  | nil =>
    simp only [gtLoop] at h
    injection h with h'
    subst h'
    rfl
  | cons pos rest ih =>
    simp only [gtLoop] at h
    split at h
    · rename_i hle
      rw [List.filter_cons_of_neg (by simp; omega)]
      exact ih h
    · rename_i hle
      rw [List.filter_cons_of_pos (by simp; omega)]
      split at h
      · exact absurd h (by simp)
      · rename_i text hseq
        split at h
        · exact absurd h (by simp)
        · rename_i nt hnt
          split at h
          · exact absurd h (by simp)
          · rename_i results' hrec
            injection h with h'
            subst h'
            simp only [List.map_cons]
            rw [ih hrec]

/-! ## Claim theorems: processing entry point (C1, C2, C3, C9, C10) -/

/-- C1: For every sequence of valid single-sequence processing calls, after
each call to `process_logits` the unstructured store and the structured store
have equal length — after the n-th call both hold exactly n entries — and
each successful call grows both stores by exactly one entry. -/
theorem stores_grow_in_lockstep
    (p : Option Delegate)
    (calls : List (List (List Nat) × List (List ℚ)))
    (tf : LogitTracker)
    (hrun : runCalls (LogitTracker.init p) calls = some tf) :
    (∀ t ids lg out t', process_logits t ids lg = (Except.ok out, t') →
        t'.unstructured_logits.length = t.unstructured_logits.length + 1 ∧
        t'.structured_logits.length = t.structured_logits.length + 1) ∧
    ∀ n, n ≤ calls.length → ∃ tn,
      runCalls (LogitTracker.init p) (calls.take n) = some tn ∧
      tn.unstructured_logits.length = n ∧
      tn.structured_logits.length = n := by
  constructor
  · intro t ids lg out t' h
    obtain ⟨row, _, _, hu, ⟨prow, hs⟩, _⟩ := process_logits_ok_spec h
    constructor
    · rw [hu]; simp
    · rw [hs]; simp
  · intro n hn
    have hsplit :=
      runCalls_append (LogitTracker.init p) (calls.take n) (calls.drop n)
    rw [List.take_append_drop, hrun] at hsplit
    rcases hpre : runCalls (LogitTracker.init p) (calls.take n) with _ | tn
    · rw [hpre] at hsplit
      simp at hsplit
    · obtain ⟨h1, h2, _⟩ := runCalls_store_lengths hpre
      refine ⟨tn, rfl, ?_, ?_⟩
      · rw [h1]
        simp [LogitTracker.init, List.length_take]
        omega
      · rw [h2]
        simp [LogitTracker.init, List.length_take]
        omega

/-- Witness for C1 at a concrete one-call trace. -/
theorem stores_grow_in_lockstep_witness :
    ∃ tn, runCalls (LogitTracker.init none) ([([[0]], [[(1 : ℚ)]])].take 1)
        = some tn ∧
      tn.unstructured_logits.length = 1 ∧
      tn.structured_logits.length = 1 := by
  have h := stores_grow_in_lockstep none [([[0]], [[(1 : ℚ)]])]
    { processor := none, unstructured_logits := [[(1 : ℚ)]],
      structured_logits := [[(1 : ℚ)]], vocab_tokens := none,
      chosen_tokens := [], _started := true, tokenizer := none } rfl
  exact h.2 1 (by decide)

/-- C2: the very first call sets the started flag and appends nothing to the
chosen-token log; a later call whose (single) token history is longer than 1
appends that history's last element; in a generation trace where every call
after the first has history length > 1, the log has n−1 entries after the
n-th call; the example trace `[[0]], [[0,1]], [[0,1,2]]` yields log `[1, 2]`. -/
theorem chosen_token_log_alignment :
    (∀ p ids lg out t',
        process_logits (LogitTracker.init p) ids lg = (Except.ok out, t') →
        t'._started = true ∧ t'.chosen_tokens = []) ∧
    (∀ t ids lg out t' hist rest, t._started = true → ids = hist :: rest →
        1 < hist.length →
        process_logits t ids lg = (Except.ok out, t') →
        t'.chosen_tokens = t.chosen_tokens ++ [hist.getLastD 0]) ∧
    (∀ (p : Option Delegate)
        (calls : List (List (List Nat) × List (List ℚ))) (n : Nat)
        (tn : LogitTracker),
        (∀ c ∈ calls.drop 1, 1 < (c.1.headD []).length) →
        1 ≤ n → n ≤ calls.length →
        runCalls (LogitTracker.init p) (calls.take n) = some tn →
        tn.chosen_tokens.length = n - 1) ∧
    (runCalls (LogitTracker.init none)
        [([[0]], [[(1 : ℚ)]]), ([[0, 1]], [[(1 : ℚ)]]),
         ([[0, 1, 2]], [[(1 : ℚ)]])]).map LogitTracker.chosen_tokens
      = some [1, 2] := by
  refine ⟨?_, ?_, ?_, by decide⟩
  · intro p ids lg out t' h
    obtain ⟨row, _, _, _, _, hst', _, _, _, hch⟩ := process_logits_ok_spec h
    refine ⟨hst', ?_⟩
    rcases hch with ⟨_, he⟩ | ⟨hst, _⟩
    · rw [he]; rfl
    · exact absurd hst (by simp [LogitTracker.init])
  · intro t ids lg out t' hist rest hst hids hl h
    obtain ⟨row, _, _, _, _, _, _, _, _, hch⟩ := process_logits_ok_spec h
    rcases hch with ⟨hcond, _⟩ | ⟨_, hist₂, rest₂, hids₂, hl₂, he₂⟩
    · rcases hcond with hfalse | ⟨hist₂, rest₂, hids₂, hshort⟩
      · rw [hst] at hfalse; cases hfalse
      · rw [hids] at hids₂
        injection hids₂ with e1 e2
        exact absurd hl (e1 ▸ hshort)
    · rw [hids] at hids₂
      injection hids₂ with e1 e2
      rw [he₂, e1]
  · intro p calls n tn hall h1 hn hrun
    cases calls with
    | nil =>
      simp at hn
      omega
    | cons c cs =>
      have htake : (c :: cs).take n = c :: cs.take (n - 1) := by
        cases n with
        | zero => omega
        | succ m => simp
      rw [htake, runCalls] at hrun
      rcases hp : process_logits (LogitTracker.init p) c.1 c.2 with ⟨res, t1⟩
      rw [hp] at hrun
      cases res with
      | error e => exact absurd hrun (by simp)
      | ok v =>
        obtain ⟨row, _, _, _, _, hst1, _, _, _, hch⟩ := process_logits_ok_spec hp
        have hch1 : t1.chosen_tokens = [] := by
          rcases hch with ⟨_, he⟩ | ⟨hst, _⟩
          · rw [he]; rfl
          · exact absurd hst (by simp [LogitTracker.init])
        have hgrow := runCalls_chosen_growth hst1
          (fun d hd => hall d (by simpa using List.mem_of_mem_take hd)) hrun
        rw [hgrow, hch1]
        simp only [List.length_cons] at hn
        simp [List.length_take]
        omega

/-- Witness for C2's quantified parts at the concrete example trace. -/
theorem chosen_token_log_alignment_witness :
    ∃ tn, runCalls (LogitTracker.init none)
        ([([[0]], [[(1 : ℚ)]]), ([[0, 1]], [[(1 : ℚ)]]),
          ([[0, 1, 2]], [[(1 : ℚ)]])].take 3) = some tn ∧
      tn.chosen_tokens.length = 3 - 1 := by
  exact ⟨_, rfl, chosen_token_log_alignment.2.2.1 none
    [([[0]], [[(1 : ℚ)]]), ([[0, 1]], [[(1 : ℚ)]]), ([[0, 1, 2]], [[(1 : ℚ)]])]
    3 _ (by decide) (by decide) (by decide) rfl⟩

/-- C3 (amended): a token-history batch or a score batch of size greater than
one fails immediately with `InvalidBatchSize` and no tracker state is mutated,
regardless of the other argument. -/
theorem oversized_batch_rejected (t : LogitTracker) (ids : List (List Nat))
    (lg : List (List ℚ)) (h : 1 < lg.length ∨ 1 < ids.length) :
    (process_logits t ids lg).2 = t ∧
    ∃ d n, (process_logits t ids lg).1 = .error (.invalidBatchSize d n) := by
  by_cases h1 : 1 < lg.length
  · rw [process_logits_batch1_err h1]
    exact ⟨rfl, "batch", lg.length, rfl⟩
  · have h2 : 1 < ids.length := h.resolve_left h1
    rw [process_logits_batch2_err h1 h2]
    exact ⟨rfl, "sequences", ids.length, rfl⟩

/-- Witness for C3's amended theorem: a token-history batch of size 2 with a
valid score batch is rejected with `InvalidBatchSize`, state untouched. -/
theorem oversized_batch_rejected_witness :
    (process_logits (LogitTracker.init none) [[0], [0]] [[(1 : ℚ)]]).2
        = LogitTracker.init none ∧
    ∃ d n, (process_logits (LogitTracker.init none) [[0], [0]] [[(1 : ℚ)]]).1
        = .error (.invalidBatchSize d n) :=
  oversized_batch_rejected (LogitTracker.init none) [[0], [0]] [[(1 : ℚ)]]
    (Or.inr (by decide))

/-- C3 counterexample: an empty token-history batch — which does not represent
exactly one sequence — is NOT rejected: the call succeeds and mutates the
tracker (the code only checks for batch sizes greater than one). -/
theorem empty_history_batch_accepted :
    (process_logits (LogitTracker.init none) [] [[(1 : ℚ)]]).1
        = .ok [[(1 : ℚ)]] ∧
    (process_logits (LogitTracker.init none) []
        [[(1 : ℚ)]]).2.unstructured_logits = [[(1 : ℚ)]] :=
  ⟨rfl, rfl⟩

/-- C9: `clear` resets the unstructured store, the structured store and the
chosen-token log to empty, and leaves the started flag and the cached
vocabulary table (and everything else) unchanged. -/
theorem clear_resets_data_only (t : LogitTracker) :
    t.clear.unstructured_logits = [] ∧ t.clear.structured_logits = [] ∧
    t.clear.chosen_tokens = [] ∧ t.clear._started = t._started ∧
    t.clear.vocab_tokens = t.vocab_tokens ∧
    t.clear.tokenizer = t.tokenizer ∧ t.clear.processor = t.processor :=
  ⟨rfl, rfl, rfl, rfl, rfl, rfl, rfl⟩

/-- C10: when the configured delegate fails inside `process_logits`, the call
is not atomic: the raw row is already stored (and, when started with a long
history, the chosen token is already logged) while nothing is appended to the
structured store, which ends up one entry shorter. -/
theorem delegate_failure_partial_mutation
    (t : LogitTracker) (p : Delegate) (hist : List Nat) (row : List ℚ)
    (msg : String)
    (hp : t.processor = some p)
    (hfail : p.process [hist] [row] = .error msg) :
    ∃ t', process_logits t [hist] [row] = (.error (.delegateError msg), t') ∧
      t'.unstructured_logits = t.unstructured_logits ++ [row] ∧
      t'.structured_logits = t.structured_logits ∧
      (t._started = true → 1 < hist.length →
        t'.chosen_tokens = t.chosen_tokens ++ [hist.getLastD 0]) ∧
      (t.unstructured_logits.length = t.structured_logits.length →
        t'.unstructured_logits.length = t'.structured_logits.length + 1) := by
  cases hst : t._started with
  | false =>
    refine ⟨{ t with
                unstructured_logits := t.unstructured_logits ++ [row]
                _started := true },
      ?_, rfl, rfl, ?_, ?_⟩
    · simp [process_logits, trackChosen, applyDelegate, hp, hfail, hst]
    · intro hst'
      cases hst'
    · intro hlen
      simp [hlen]
  | true =>
    by_cases hl : 1 < hist.length
    · refine ⟨{ t with
                  unstructured_logits := t.unstructured_logits ++ [row]
                  chosen_tokens := t.chosen_tokens ++ [hist.getLastD 0] },
        ?_, rfl, rfl, fun _ _ => rfl, ?_⟩
      · simp [process_logits, trackChosen, applyDelegate, hp, hfail, hst, hl]
      · intro hlen
        simp [hlen]
    · refine ⟨{ t with
                  unstructured_logits := t.unstructured_logits ++ [row]
                  _started := true },
        ?_, rfl, rfl, fun _ hl' => absurd hl' hl, ?_⟩
      · simp [process_logits, trackChosen, applyDelegate, hp, hfail, hst, hl]
      · intro hlen
        simp [hlen]

/-- Witness for C10 at a concrete failing call. -/
theorem delegate_failure_partial_mutation_witness :
    ∃ t', process_logits (LogitTracker.init (some failDelegate)) [[0]]
        [[(1 : ℚ)]] = (.error (.delegateError "boom"), t') ∧
      t'.unstructured_logits = [[(1 : ℚ)]] ∧
      t'.structured_logits = [] := by
  obtain ⟨t', h1, h2, h3, _, _⟩ := delegate_failure_partial_mutation
    (LogitTracker.init (some failDelegate)) failDelegate [0] [(1 : ℚ)]
    "boom" rfl rfl
  refine ⟨t', h1, ?_, ?_⟩
  · rw [h2]; rfl
  · rw [h3]; rfl

/-! ## Claim theorems: vocabulary resolver and query leniency (C6, C7) -/

/-- C6: `get_vocab_mapping` fails with the no-tokenizer error when no decoding
capability is attached; otherwise it builds the table lazily, exactly once,
sized by the width of the first stored unstructured vector, caching it in the
state; any later call with a cached table returns it unchanged, without
looking at the stores again. -/
theorem vocab_mapping_lazy_cached :
    (∀ t : LogitTracker, t.tokenizer = none →
        get_vocab_mapping t = .error .noTokenizer) ∧
    (∀ (t : LogitTracker) (tk : Tokenizer) (v : List ℚ)
        (rest : List (List ℚ)) (vt : List String),
        t.tokenizer = some tk → t.vocab_tokens = none →
        t.unstructured_logits = v :: rest →
        vt = (List.range v.length).map (fun i => (tk.decode [i]).headD "") →
        get_vocab_mapping t = .ok (vt, { t with vocab_tokens := some vt })) ∧
    (∀ (t : LogitTracker) (tk : Tokenizer) (vt : List String),
        t.tokenizer = some tk → t.vocab_tokens = some vt →
        get_vocab_mapping t = .ok (vt, t)) := by
  refine ⟨?_, ?_, ?_⟩
  · intro t ht
    simp [get_vocab_mapping, ht]
  · intro t tk v rest vt htk hvt hu hvt'
    subst hvt'
    simp [get_vocab_mapping, htk, hvt, hu]
  · intro t tk vt htk hvt
    simp [get_vocab_mapping, htk, hvt]

/-- Witness for C6: building the table on a 2-wide store, then reading the
cache back. -/
theorem vocab_mapping_lazy_cached_witness :
    get_vocab_mapping sampleTracker
        = .ok (["a", "b"],
          { sampleTracker with vocab_tokens := some ["a", "b"] }) ∧
    get_vocab_mapping { sampleTracker with vocab_tokens := some ["a", "b"] }
        = .ok (["a", "b"],
          { sampleTracker with vocab_tokens := some ["a", "b"] }) := by
  constructor
  · exact vocab_mapping_lazy_cached.2.1 sampleTracker tkAB [(1 : ℚ), 1] []
      ["a", "b"] rfl rfl rfl rfl
  · exact vocab_mapping_lazy_cached.2.2
      { sampleTracker with vocab_tokens := some ["a", "b"] } tkAB
      ["a", "b"] rfl rfl

/-- C7: out-of-range positions are not errors in the query layer:
`get_top_tokens` silently skips requested positions beyond the recorded range
(the reported positions are exactly the in-range requests, in order),
`sequence_up_to` clamps a position beyond the chosen-token log to the log
length, and with an empty log it returns the empty string whatever the
decoding capability. -/
theorem out_of_range_positions_lenient :
    (∀ (t : LogitTracker) (softmax : List ℚ → List ℚ) (k : Nat)
        (ps : List Nat) (incl : Bool) (results : List PositionReport),
        get_top_tokens t softmax k (some ps) incl = .ok results →
        results.map PositionReport.position
          = ps.filter (fun p => decide (p < t.unstructured_logits.length))) ∧
    (∀ (t : LogitTracker) (p : Nat), t.chosen_tokens.length ≤ p →
        sequence_up_to t (some p) = sequence_up_to t none) ∧
    (∀ (t : LogitTracker) (pos : Option Nat), t.chosen_tokens = [] →
        sequence_up_to t pos = .ok "") := by
  refine ⟨?_, ?_, ?_⟩
  · intro t softmax k ps incl results h
    unfold get_top_tokens at h
    rcases hv : get_vocab_mapping t with e | pr
    · rw [hv] at h
      exact absurd h (by simp)
    · rw [hv] at h
      exact gtLoop_positions h
  · intro t p hp
    unfold sequence_up_to
    split
    · rfl
    · simp only [Option.getD]
      rw [List.take_of_length_le hp, List.take_length]
  · intro t pos h
    simp [sequence_up_to, h]

/-- Witness for C7 at `sampleTracker`: position 5 is skipped, position 7 is
clamped, and the empty log decodes to the empty string. -/
theorem out_of_range_positions_lenient_witness :
    (∃ results, get_top_tokens sampleTracker id 2 (some [5, 0]) false
        = .ok results ∧
      results.map PositionReport.position
        = [5, 0].filter
            (fun p =>
              decide (p < sampleTracker.unstructured_logits.length))) ∧
    sequence_up_to sampleTracker (some 7) = sequence_up_to sampleTracker none ∧
    sequence_up_to sampleTracker (some 7) = .ok "" := by
  refine ⟨⟨_, rfl, ?_⟩, ?_, ?_⟩
  · exact out_of_range_positions_lenient.1 sampleTracker id 2 [5, 0] false
      _ rfl
  · exact out_of_range_positions_lenient.2.1 sampleTracker 7 (by decide)
  · exact out_of_range_positions_lenient.2.2 sampleTracker (some 7) rfl

/-! ## Helper lemmas for the top-k ranking (C4, C5) -/

theorem length_argsort (v : List ℚ) : (argsort v).length = v.length := by
  unfold argsort
  rw [List.length_insertionSort, List.length_range]

theorem length_topKIndices (v : List ℚ) (k : Nat) (hk : 0 < k) :
    (topKIndices v k).length = min k v.length := by
  simp only [topKIndices]
  split
  · rename_i h0
    rw [List.length_reverse, length_argsort]
    omega
  · rw [List.length_take, List.length_reverse, length_argsort]
    omega

theorem length_topKIndices_zero (v : List ℚ) :
    (topKIndices v 0).length = v.length := by
  simp only [topKIndices]
  rw [if_pos (by omega), List.length_reverse, length_argsort]

theorem pairwise_topKIndices (v : List ℚ) (k : Nat) :
    (topKIndices v k).Pairwise (fun i j => ascLex v j i) := by
  have hs : (argsort v).Sorted (ascLex v) :=
    List.sorted_insertionSort (ascLex v) (List.range v.length)
  have hr : (argsort v).reverse.Pairwise (fun i j => ascLex v j i) := by
    rw [List.pairwise_reverse]
    exact hs
  simp only [topKIndices]
  split
  · exact hr
  · exact hr.sublist (List.take_sublist _ _)

theorem getD_map_softmax_length {l : List (List ℚ)}
    {softmax : List ℚ → List ℚ} {pos V : Nat}
    (hsm : ∀ x, (softmax x).length = x.length)
    (hV : ∀ c ∈ l, c.length = V) (hpos : pos < l.length) :
    ((l.map softmax).getD pos []).length = V := by
  rw [List.getD_eq_getElem?_getD, List.getElem?_map,
      List.getElem?_eq_getElem hpos]
  show (softmax l[pos]).length = V
  rw [hsm]
  exact hV _ (List.getElem_mem hpos)

/-- Every report the `get_top_tokens` loop emits has exactly
`min k V` token entries when all stored vectors have width `V`. -/
theorem gtLoop_tokens_length {t : LogitTracker} {softmax : List ℚ → List ℚ}
    {k : Nat} {incl : Bool} {vocab : List String} {ps : List Nat}
    {results : List PositionReport} {V : Nat}
    (hk : 0 < k)
    (hsm : ∀ x, (softmax x).length = x.length)
    (hu : ∀ c ∈ t.unstructured_logits, c.length = V)
    (hs : ∀ c ∈ t.structured_logits, c.length = V)
    (hlen : t.unstructured_logits.length = t.structured_logits.length)
    (h : gtLoop t softmax k incl vocab ps = .ok results) :
    ∀ r ∈ results, r.tokens.length = min k V := by
  induction ps generalizing results with
  | nil =>
    simp only [gtLoop] at h
    injection h with h'
    subst h'
    exact fun r hr => absurd hr (by simp)
  | cons pos rest ih =>
    simp only [gtLoop] at h
    split at h
    · exact ih h
    · rename_i hlt
      split at h
      · exact absurd h (by simp)
      · rename_i text hseq
        split at h
        · exact absurd h (by simp)
        · rename_i nt hnt
          split at h
          · exact absurd h (by simp)
          · rename_i results' hrec
            injection h with h'
            subst h'
            intro r hr
            rcases List.mem_cons.mp hr with hrep | hmem
            · subst hrep
              have hpos : pos < t.unstructured_logits.length := by omega
              have hpos' : pos < t.structured_logits.length := by omega
              simp only [List.length_map, get_probabilities]
              rw [length_topKIndices _ _ hk, List.length_zipWith,
                  getD_map_softmax_length hsm hu hpos,
                  getD_map_softmax_length hsm hs hpos']
              simp
            · exact ih hrec r hmem

/-! ## Claim theorems: top-token query (C4, C5) -/

/-- C4 (amended): for every in-range selected position and every `k ≥ 1`,
`get_top_tokens` returns exactly `min(k, vocabulary_size)` entries, ranked by
`max(unstructured_prob, structured_prob)` descending; ties are broken in
DESCENDING index order — the reverse of a stable ascending argsort — not in
the ascending index order a stable descending sort would give; and for
`k = 0` the `[-0:]` slice selects the whole array, so ALL `vocabulary_size`
indices are returned rather than `min(0, vocabulary_size) = 0`. -/
theorem top_tokens_ranking :
    (∀ (v : List ℚ) (k : Nat),
        (0 < k → (topKIndices v k).length = min k v.length) ∧
        (topKIndices v 0).length = v.length ∧
        (topKIndices v k).Pairwise (fun i j => ascLex v j i)) ∧
    (∀ (t : LogitTracker) (softmax : List ℚ → List ℚ) (k : Nat)
        (ps : Option (List Nat)) (incl : Bool) (V : Nat)
        (results : List PositionReport),
        0 < k →
        (∀ x, (softmax x).length = x.length) →
        (∀ c ∈ t.unstructured_logits, c.length = V) →
        (∀ c ∈ t.structured_logits, c.length = V) →
        t.unstructured_logits.length = t.structured_logits.length →
        get_top_tokens t softmax k ps incl = .ok results →
        ∀ r ∈ results, r.tokens.length = min k V) := by
  refine ⟨fun v k => ⟨length_topKIndices v k, length_topKIndices_zero v,
    pairwise_topKIndices v k⟩, ?_⟩
  intro t softmax k ps incl V results hk hsm hu hs hlen h
  unfold get_top_tokens at h
  rcases hv : get_vocab_mapping t with e | pr
  · rw [hv] at h
    exact absurd h (by simp)
  · rw [hv] at h
    exact gtLoop_tokens_length hk hsm hu hs hlen h

/-- C4 counterexample: on the tied probability vector `[1, 1]` with `k = 2`
the code produces indices `[1, 0]`, while the stable descending sort the
claim describes produces `[0, 1]`; and with `k = 0` the code returns both
indices (`[-0:]` keeps the whole array) instead of `min(0, 2) = 0` entries. -/
theorem top_tokens_tie_order_counterexample :
    topKIndices [(1 : ℚ), 1] 2 = [1, 0] ∧
    stableDescTopK [(1 : ℚ), 1] 2 = [0, 1] ∧
    topKIndices [(1 : ℚ), 1] 2 ≠ stableDescTopK [(1 : ℚ), 1] 2 ∧
    topKIndices [(1 : ℚ), 1] 0 = [1, 0] := by decide

/-- Witness for C4's amended theorem at `sampleTracker` with identity softmax. -/
theorem top_tokens_ranking_witness :
    (topKIndices [(1 : ℚ), 1] 2).length = min 2 2 ∧
    (topKIndices [(1 : ℚ), 1] 0).length = 2 ∧
    ∃ results, get_top_tokens sampleTracker id 2 none false = .ok results ∧
      ∀ r ∈ results, r.tokens.length = min 2 2 := by
  refine ⟨(top_tokens_ranking.1 [(1 : ℚ), 1] 2).1 (by decide),
    (top_tokens_ranking.1 [(1 : ℚ), 1] 0).2.1, _, rfl, ?_⟩
  exact top_tokens_ranking.2 sampleTracker id 2 none false 2 _
    (by decide) (fun x => rfl) (by simp [sampleTracker])
    (by simp [sampleTracker]) rfl rfl

/-- C5 (amended): in the report produced for the last recorded position, each
entry's `is_chosen` equals the comparison of its token string with the empty
string (the "next token" slice is empty there): it is `false` exactly when
the token decodes to a nonempty string, and `true` for a token decoding to
the empty string. -/
theorem last_position_is_chosen (t : LogitTracker)
    (softmax : List ℚ → List ℚ) (k : Nat) (incl : Bool)
    (report : PositionReport)
    (hlen : t.unstructured_logits.length = t.structured_logits.length)
    (hpos : 0 < t.structured_logits.length)
    (h : get_top_tokens t softmax k
        (some [t.structured_logits.length - 1]) incl = .ok [report]) :
    ∀ info ∈ report.tokens, info.is_chosen = decide (info.token = "") := by
  unfold get_top_tokens at h
  rcases hv : get_vocab_mapping t with e | pr
  · rw [hv] at h
    exact absurd h (by simp)
  · rw [hv] at h
    have hnt : nextTokenAt t (t.structured_logits.length - 1) =
        fun _ => .ok "" := by
      funext text
      unfold nextTokenAt
      rw [if_neg (Nat.lt_irrefl _)]
    simp only [gtLoop] at h
    split at h
    · rename_i hle
      omega
    · split at h
      · exact absurd h (by simp)
      · rename_i text hseq
        rw [hnt] at h
        simp only [gtLoop] at h
        injection h with h'
        injection h' with h'' h'''
        subst h''
        intro info hinfo
        rcases List.mem_map.mp hinfo with ⟨idx, hidx, hmk⟩
        subst hmk
        rfl

/-- C5 counterexample: with a vocabulary containing a token that decodes to
the empty string (`emptyTokenTracker`), the last position's report marks that
token as chosen (`is_chosen = true`), so `is_chosen` is not always false at
the final position. -/
theorem last_position_chosen_counterexample :
    (get_top_tokens emptyTokenTracker id 2 none false).map
        (fun rs => rs.map (fun r => r.tokens.map TokenInfo.is_chosen))
      = .ok [[false, true]] := rfl

/-- Witness for C5's amended theorem at `sampleTracker`. -/
theorem last_position_is_chosen_witness :
    ∃ report, get_top_tokens sampleTracker id 2 (some [0]) false
        = .ok [report] ∧
      ∀ info ∈ report.tokens, info.is_chosen = decide (info.token = "") := by
  refine ⟨_, rfl, ?_⟩
  exact last_position_is_chosen sampleTracker id 2 false _ rfl
    (by decide) rfl

/-! ## Helper lemmas for the tabular export (C8) -/

theorem list_getD_eq_getElem {α : Type} {l : List α} {n : Nat} (d : α)
    (h : n < l.length) : l.getD n d = l[n] := by
  rw [List.getD_eq_getElem?_getD, List.getElem?_eq_getElem h]
  rfl

theorem getD_map_rat {l : List Nat} {f : Nat → ℚ} {j : Nat}
    (h : j < l.length) : (l.map f).getD j 0 = f (l.getD j 0) := by
  rw [list_getD_eq_getElem _ (by simpa using h), List.getElem_map,
      list_getD_eq_getElem _ h]

theorem dfPosRows_none_length (vocab : List String) (chosen : List Nat)
    (values : Matrices) (pos : Nat) :
    (dfPosRows vocab chosen values none pos).length = vocab.length := by
  simp [dfPosRows, validIndicesFor]

theorem length_lastK (k : Nat) (l : List Nat) :
    (lastK k l).length = min k l.length := by
  unfold lastK
  rw [List.length_drop]
  omega

theorem validIndicesFor_some_length (u s : List ℚ) (m : ℚ) (L : Nat) :
    (validIndicesFor u s (some m) L).length
      = min 10 (passingIndices u s m).length := by
  simp only [validIndicesFor]
  split
  · rw [List.length_map, length_lastK, length_argsort, List.length_map]
  · rename_i hp
    omega

theorem mem_argsort {v : List ℚ} {j : Nat} (h : j ∈ argsort v) :
    j < v.length := by
  unfold argsort at h
  rw [List.mem_insertionSort] at h
  exact List.mem_range.mp h

theorem validIndicesFor_some_subset {u s : List ℚ} {m : ℚ} {L i : Nat}
    (h : i ∈ validIndicesFor u s (some m) L) :
    i ∈ passingIndices u s m := by
  simp only [validIndicesFor] at h
  split at h
  · rcases List.mem_map.mp h with ⟨j, hj, rfl⟩
    have hj' := List.mem_of_mem_drop hj
    have hjlt := mem_argsort hj'
    rw [List.length_map] at hjlt
    rw [list_getD_eq_getElem _ hjlt]
    exact List.getElem_mem hjlt
  · exact h

theorem passingIndices_spec {u s : List ℚ} {m : ℚ} {i : Nat}
    (h : i ∈ passingIndices u s m) :
    i < (maxVals u s).length ∧ m ≤ (maxVals u s).getD i 0 := by
  unfold passingIndices at h
  rw [List.mem_filter] at h
  exact ⟨List.mem_range.mp h.1, by simpa using h.2⟩

theorem maxVals_getD {u s : List ℚ} {i : Nat}
    (h : i < (maxVals u s).length) :
    (maxVals u s).getD i 0 = max (u.getD i 0) (s.getD i 0) := by
  have h' := h
  unfold maxVals at h' ⊢
  rw [List.length_zipWith] at h'
  have hu : i < u.length := lt_of_lt_of_le h' (min_le_left _ _)
  have hs : i < s.length := lt_of_lt_of_le h' (min_le_right _ _)
  rw [list_getD_eq_getElem _ (by rw [List.length_zipWith]; omega),
      List.getElem_zipWith, list_getD_eq_getElem _ hu,
      list_getD_eq_getElem _ hs]

theorem ascLex_getD_le {v : List ℚ} {i j : Nat} (h : ascLex v i j) :
    v.getD i 0 ≤ v.getD j 0 := by
  rcases h with h | ⟨h, _⟩
  · exact le_of_lt h
  · exact le_of_eq h

/-- The kept-top-10 set dominates every passing index it drops: any kept
index has max value at least that of any dropped passing index. -/
theorem validIndicesFor_some_top {u s : List ℚ} {m : ℚ} {L a b : Nat}
    (ha : a ∈ validIndicesFor u s (some m) L)
    (hb : b ∈ passingIndices u s m)
    (hnb : b ∉ validIndicesFor u s (some m) L) :
    (maxVals u s).getD b 0 ≤ (maxVals u s).getD a 0 := by
  have hp : 0 < (passingIndices u s m).length :=
    List.length_pos.mpr (List.ne_nil_of_mem hb)
  have heq : validIndicesFor u s (some m) L
      = (lastK 10 (argsort ((passingIndices u s m).map
          (fun i => (maxVals u s).getD i 0)))).map
          (fun j => (passingIndices u s m).getD j 0) := by
    simp only [validIndicesFor]
    rw [if_pos hp]
  rw [heq] at ha hnb
  rcases List.mem_map.mp ha with ⟨ja, hja, rfl⟩
  rcases List.mem_iff_getElem.mp hb with ⟨jb, hjb, hgetb⟩
  have hperm := List.perm_insertionSort
    (ascLex ((passingIndices u s m).map (fun i => (maxVals u s).getD i 0)))
    (List.range ((passingIndices u s m).map
      (fun i => (maxVals u s).getD i 0)).length)
  have hjb_mem : jb ∈ argsort ((passingIndices u s m).map
      (fun i => (maxVals u s).getD i 0)) := by
    unfold argsort
    apply hperm.mem_iff.mpr
    rw [List.mem_range, List.length_map]
    exact hjb
  have hsplit := List.take_append_drop
    ((argsort ((passingIndices u s m).map
      (fun i => (maxVals u s).getD i 0))).length - 10)
    (argsort ((passingIndices u s m).map
      (fun i => (maxVals u s).getD i 0)))
  rw [← hsplit] at hjb_mem
  rcases List.mem_append.mp hjb_mem with hjb_take | hjb_drop
  · -- jb is in the dropped (non-top) prefix: use sortedness across the split
    have hsorted : (argsort ((passingIndices u s m).map
        (fun i => (maxVals u s).getD i 0))).Sorted
          (ascLex ((passingIndices u s m).map
            (fun i => (maxVals u s).getD i 0))) :=
      List.sorted_insertionSort _ _
    rw [← hsplit] at hsorted
    have hcross := (List.pairwise_append.mp hsorted).2.2 jb hjb_take ja hja
    have hja_lt : ja < (passingIndices u s m).length := by
      have := mem_argsort (List.mem_of_mem_drop hja)
      rwa [List.length_map] at this
    have hjb_lt : jb < (passingIndices u s m).length := hjb
    have hle := ascLex_getD_le hcross
    rw [getD_map_rat hjb_lt, getD_map_rat hja_lt] at hle
    rw [list_getD_eq_getElem _ hjb_lt, hgetb] at hle
    exact hle
  · -- jb in the kept suffix would make b a kept index, contradiction
    exfalso
    apply hnb
    apply List.mem_map.mpr
    refine ⟨jb, hjb_drop, ?_⟩
    rw [list_getD_eq_getElem _ hjb, hgetb]

theorem length_flatMap_const {α : Type} {l : List α} {f : α → List Row}
    {c : Nat} (h : ∀ a ∈ l, (f a).length = c) :
    (l.flatMap f).length = l.length * c := by
  induction l with
  | nil => simp
  | cons x xs ih =>
    simp only [List.flatMap] at ih ⊢
    simp only [List.map_cons, List.flatten_cons, List.length_append,
      List.length_cons]
    rw [ih (fun a ha => h a (List.mem_cons_of_mem _ ha)),
        h x (List.mem_cons_self x xs)]
    ring

/-! ## Claim theorem: tabular export (C8) -/

/-- C8: without a threshold the exported table has one row per
(position, vocabulary-index) pair — steps × vocabulary_size rows; with a
threshold it contains only entries whose max(unstructured, structured) value
meets the threshold, capped per position to the top 10 such entries by that
max value even when more pass. -/
theorem to_dataframe_rows :
    (∀ (t : LogitTracker) (values : Matrices) (vocab : List String)
        (t' : LogitTracker) (rows : List Row),
        get_vocab_mapping t = .ok (vocab, t') →
        _to_dataframe t values none = .ok rows →
        rows.length = values.unstructured.length * vocab.length) ∧
    (∀ (t : LogitTracker) (values : Matrices) (m : ℚ) (rows : List Row),
        _to_dataframe t values (some m) = .ok rows →
        ∀ r ∈ rows, m ≤ max r.natural r.constrained) ∧
    (∀ (vocab : List String) (chosen : List Nat) (values : Matrices)
        (m : ℚ) (pos : Nat),
        (dfPosRows vocab chosen values (some m) pos).length
          = min 10 (passingIndices (values.unstructured.getD pos [])
              (values.structured.getD pos []) m).length) ∧
    (∀ (u s : List ℚ) (m : ℚ) (L a b : Nat),
        a ∈ validIndicesFor u s (some m) L →
        b ∈ passingIndices u s m → b ∉ validIndicesFor u s (some m) L →
        (maxVals u s).getD b 0 ≤ (maxVals u s).getD a 0) := by
  refine ⟨?_, ?_, ?_, fun u s m L a b ha hb hnb =>
    validIndicesFor_some_top ha hb hnb⟩
  · intro t values vocab t' rows hv h
    unfold _to_dataframe at h
    rw [hv] at h
    injection h with h'
    subst h'
    rw [length_flatMap_const
      (fun pos _ => dfPosRows_none_length vocab t.chosen_tokens values pos)]
    rw [List.length_range]
  · intro t values m rows h
    unfold _to_dataframe at h
    rcases hv : get_vocab_mapping t with e | pr
    · rw [hv] at h
      exact absurd h (by simp)
    · rw [hv] at h
      injection h with h'
      subst h'
      intro r hr
      rcases List.mem_flatMap.mp hr with ⟨pos, hpos, hrpos⟩
      simp only [dfPosRows] at hrpos
      rcases List.mem_map.mp hrpos with ⟨idx, hidx, rfl⟩
      have hpass := validIndicesFor_some_subset hidx
      obtain ⟨hlt, hle⟩ := passingIndices_spec hpass
      rw [maxVals_getD hlt] at hle
      simpa using hle
  · intro vocab chosen values m pos
    simp only [dfPosRows]
    rw [List.length_map, validIndicesFor_some_length]

/-- Witness for C8 on `sampleTracker`'s stored logits: the dense table has
1 × 2 rows; a thresholded table only carries rows meeting the threshold. -/
theorem to_dataframe_rows_witness :
    (∃ rows, _to_dataframe sampleTracker (get_logits sampleTracker) none
        = .ok rows ∧
      rows.length
        = (get_logits sampleTracker).unstructured.length * 2) ∧
    (∃ rows, _to_dataframe sampleTracker (get_logits sampleTracker)
        (some (1 : ℚ)) = .ok rows ∧
      ∀ r ∈ rows, (1 : ℚ) ≤ max r.natural r.constrained) ∧
    (dfPosRows ["a", "b"] [] (get_logits sampleTracker) (some (1 : ℚ)) 0).length
      = min 10 (passingIndices
          ((get_logits sampleTracker).unstructured.getD 0 [])
          ((get_logits sampleTracker).structured.getD 0 []) (1 : ℚ)).length := by
  refine ⟨⟨_, rfl, ?_⟩, ⟨_, rfl, ?_⟩, ?_⟩
  · exact to_dataframe_rows.1 sampleTracker (get_logits sampleTracker)
      ["a", "b"] { sampleTracker with vocab_tokens := some ["a", "b"] }
      _ rfl rfl
  · exact to_dataframe_rows.2.1 sampleTracker (get_logits sampleTracker)
      1 _ rfl
  · exact to_dataframe_rows.2.2.1 ["a", "b"] [] (get_logits sampleTracker)
      1 0

end Tracking
